import Mathlib

/-!
Verification of the simulation core of a turn-structured narrative
training simulator.  The definitions below are a shallow embedding of the
state-mutating operations found in the two game containers
(`src/unnamed/part_000` and `src/games/InnovatecGame.tsx`): clock and
day-rollover (`advanceTime`), the event scheduler, the contingent-trigger
predicate, consequence application, meeting conclusion, the timer and
win-condition effects, and the `execute_week` dispatch operation.
JavaScript numbers are modelled as `Int`; optional values as `Option`;
the JS object used for the per-day history snapshot as an association
list updated with spread semantics.
-/

namespace Prototipo

/-- Commitment status; transitions pending → broken happen at day rollover. -/
inductive CommitmentStatus
  | pending
  | fulfilled
  | broken
deriving DecidableEq, Repr

/-- A promised deliverable with a due day. -/
structure Commitment where
  description : String
  dayDue : Int
  status : CommitmentStatus
deriving DecidableEq, Repr

/-- Per-stakeholder relational state. -/
structure Stakeholder where
  id : String
  name : String
  role : String
  trust : Int
  support : Int
  minSupport : Int
  maxSupport : Int
  status : String
  lastMetDay : Option Int
  commitments : List Commitment
deriving DecidableEq, Repr

/-- Overall session status. -/
inductive GameStatus
  | playing
  | won
  | lost
deriving DecidableEq, Repr

/-- The optional numeric deltas and follow-up dialogue attached to an option. -/
structure Consequences where
  trustChange : Option Int := none
  supportChange : Option Int := none
  budgetChange : Option Int := none
  reputationChange : Option Int := none
  projectProgressChange : Option Int := none
  dialogueResponse : String := ""
deriving DecidableEq, Repr

/-- A selectable option on a scenario node. -/
structure ScenarioOption where
  option_id : String
  text : String
  consequences : Consequences
deriving DecidableEq, Repr

/-- One dialogue beat with its options. -/
structure ScenarioNode where
  node_id : String
  stakeholderRole : String
  dialogue : String
  options : List ScenarioOption
deriving DecidableEq, Repr

/-- Threshold rules for a contingent sequence. -/
structure ContingentRules where
  budgetBelow : Option Int := none
  trustBelow : Option Int := none
  supportBelow : Option Int := none
  stakeholderRole : Option String := none
deriving DecidableEq, Repr

/-- A scripted multi-node conversation. -/
structure MeetingSequence where
  sequence_id : String
  stakeholderRole : String
  nodes : List String
  initialDialogue : String
  finalDialogue : String
  isInevitable : Bool
  isContingent : Bool
  contingentRules : Option ContingentRules
deriving DecidableEq, Repr

/-- The sequence currently in focus together with the current node index. -/
structure Meeting where
  sequence : MeetingSequence
  nodeIndex : Nat
deriving DecidableEq, Repr

/-- A decision-log record, appended on every option selection. -/
structure DecisionLogEntry where
  day : Int
  timeSlot : String
  stakeholder : String
  nodeId : String
  choiceId : String
  choiceText : String
  consequences : Consequences
deriving DecidableEq, Repr

/-- An inbox email reference. -/
structure InboxEmail where
  email_id : String
  dayReceived : Int
  isRead : Bool
deriving DecidableEq, Repr

/-- A scheduled calendar meeting (Innovatec variant). -/
structure CalendarMeeting where
  stakeholderName : String
  day : Int
  slot : String
deriving DecidableEq, Repr

/-- The session-scoped state container. -/
structure GameState where
  playerName : String
  day : Int
  timeSlot : String
  budget : Int
  reputation : Int
  projectProgress : Int
  stakeholders : List Stakeholder
  history : List (Int × List Stakeholder)
  eventsLog : List String
  criticalWarnings : List String
  completedSequences : List String
  completedScenarios : List String
  scenarioSchedule : List (String × Int × String)
  decisionLog : List DecisionLogEntry
  processLog : List String
  calendar : List CalendarMeeting
  inbox : List InboxEmail
  playerNotes : String
deriving DecidableEq, Repr

/-- Modelled from the spec: the ordered finite slot set `TIME_SLOTS` lives in
a constants file that is not among the provided sources; the spec describes
an ordered finite set such as morning/afternoon/evening, and the sources
reference the Spanish slot name "tarde". -/
def TIME_SLOTS : List String := ["mañana", "tarde", "noche"]

/-- Modelled from the spec: the designated non-relational secretary role
constant `SECRETARY_ROLE` lives in a constants file that is not among the
provided sources; only its identity matters to the simulation core. -/
def SECRETARY_ROLE : String := "Secretaria"

/-- Countdown seconds per period in the default container. -/
def PERIOD_DURATION : Int := 90

/-- JavaScript `Array.prototype.indexOf`: first index or `-1`. -/
def jsIndexOf (xs : List String) (x : String) : Int :=
  match xs.findIdx? (fun y => y == x) with
  | some i => (i : Int)
  | none => -1

/-- Whether a commitment counts as broken. -/
def isBroken (c : Commitment) : Bool :=
  c.status == CommitmentStatus.broken

/-- The rollover breakage condition: `c.status === 'pending' && nextDay > c.dayDue`. -/
def isOverdue (nextDay : Int) (c : Commitment) : Bool :=
  c.status == CommitmentStatus.pending && decide (nextDay > c.dayDue)

/-- Number of broken commitments in a list. -/
def brokenCount (cs : List Commitment) : Nat :=
  (cs.filter isBroken).length

/-- Number of pending commitments that are overdue at `nextDay`. -/
def overdueCount (nextDay : Int) (cs : List Commitment) : Nat :=
  (cs.filter (isOverdue nextDay)).length

/-- One commitment after rollover: a pending overdue commitment becomes broken. -/
def breakCommitment (nextDay : Int) (c : Commitment) : Commitment :=
  if isOverdue nextDay c then { c with status := CommitmentStatus.broken } else c

/-- Day-rollover processing of one stakeholder in the default container:
break overdue pending commitments and charge 20 trust per newly broken
commitment, floored at 0. -/
def rolloverStakeholder (nextDay : Int) (sh : Stakeholder) : Stakeholder :=
  let updatedCommitments := sh.commitments.map (breakCommitment nextDay)
  let newlyBroken : Int := (brokenCount updatedCommitments : Int) - (brokenCount sh.commitments : Int)
  { sh with commitments := updatedCommitments, trust := max 0 (sh.trust - newlyBroken * 20) }

/-- JS object-spread update of the history snapshot map: replace the binding
if the key is present, otherwise append it. -/
def setKey (h : List (Int × List Stakeholder)) (k : Int) (v : List Stakeholder) :
    List (Int × List Stakeholder) :=
  if h.any (fun p => p.1 == k) then h.map (fun p => if p.1 == k then (k, v) else p)
  else h ++ [(k, v)]

/-- Lookup in the history snapshot map. -/
def getKey (h : List (Int × List Stakeholder)) (k : Int) : Option (List Stakeholder) :=
  (h.find? (fun p => p.1 == k)).map Prod.snd

/-- `advance()` crosses a day boundary exactly when the successor slot index
overflows the slot set. -/
def crossesDay (s : GameState) : Bool :=
  decide (jsIndexOf TIME_SLOTS s.timeSlot + 1 ≥ (TIME_SLOTS.length : Int))

/-- The slot shown after one `advance()` step. -/
def nextTimeSlot (s : GameState) : String :=
  if crossesDay s then TIME_SLOTS.getD 0 ""
  else TIME_SLOTS.getD (jsIndexOf TIME_SLOTS s.timeSlot + 1).toNat ""

/-- Log line published at a day boundary in the default container. -/
def dayBeganMessage (d : Int) : String :=
  s!"Ha comenzado el día {d}."

/-- `advanceTime` of the default container: advance the slot, and on a day
boundary snapshot the pre-advance stakeholders into `history`, break overdue
pending commitments and charge the trust penalty. -/
def advanceTime (s : GameState) : GameState :=
  let nextDay := if crossesDay s then s.day + 1 else s.day
  let history := if crossesDay s then setKey s.history s.day s.stakeholders else s.history
  let stakeholders :=
    if crossesDay s then s.stakeholders.map (rolloverStakeholder (s.day + 1)) else s.stakeholders
  let events := if crossesDay s then s.eventsLog ++ [dayBeganMessage (s.day + 1)] else s.eventsLog
  { s with day := nextDay, timeSlot := nextTimeSlot s, history := history,
           stakeholders := stakeholders, eventsLog := events }

/-- The Innovatec neglect condition: not the secretary and
`(lastMetDay || 0) < currentDay - 3`. -/
def neglectPenaltyApplies (currentDay : Int) (sh : Stakeholder) : Bool :=
  sh.role != SECRETARY_ROLE && decide ((sh.lastMetDay.getD 0) < currentDay - 3)

/-- Day-rollover processing of one stakeholder in the Innovatec container:
commitment breakage as in the default container, plus a flat 2-point neglect
penalty, with a single floor at 0 applied at the end. -/
def rolloverStakeholderInnovatec (currentDay nextDay : Int) (sh : Stakeholder) : Stakeholder :=
  let updatedCommitments := sh.commitments.map (breakCommitment nextDay)
  let newlyBrokenCount : Int :=
    (brokenCount updatedCommitments : Int) - (brokenCount sh.commitments : Int)
  let trustAfterBreakage := sh.trust - newlyBrokenCount * 20
  let trustAfterNeglect :=
    if neglectPenaltyApplies currentDay sh then trustAfterBreakage - 2 else trustAfterBreakage
  { sh with commitments := updatedCommitments, trust := max 0 trustAfterNeglect }

/-- Log line published at a day boundary in the Innovatec container. -/
def dayBeganMessageInnovatec (d : Int) : String :=
  s!"Ha comenzado el día {d}. Un nuevo día trae nuevos desafíos."

/-- Log line published for each newly broken promise in the Innovatec container. -/
def brokenPromiseMessage (n d : String) : String :=
  s!"¡Promesa a {n} ({d}) rota! La confianza ha sido dañada."

/-- The broken-promise log lines one stakeholder contributes at a rollover. -/
def brokenPromiseMessages (nextDay : Int) (sh : Stakeholder) : List String :=
  (sh.commitments.filter (isOverdue nextDay)).map
    (fun c => brokenPromiseMessage sh.name c.description)

/-- `advanceTime` of the Innovatec container: as the default one, plus the
flat neglect penalty and the broken-promise log lines. -/
def advanceTimeInnovatec (s : GameState) : GameState :=
  let nextDay := if crossesDay s then s.day + 1 else s.day
  let history := if crossesDay s then setKey s.history s.day s.stakeholders else s.history
  let stakeholders :=
    if crossesDay s then s.stakeholders.map (rolloverStakeholderInnovatec s.day (s.day + 1))
    else s.stakeholders
  let events :=
    if crossesDay s then
      s.eventsLog ++ [dayBeganMessageInnovatec (s.day + 1)]
        ++ (s.stakeholders.flatMap (brokenPromiseMessages (s.day + 1)))
    else s.eventsLog
  { s with day := nextDay, timeSlot := nextTimeSlot s, history := history,
           stakeholders := stakeholders, eventsLog := events }

/-- Consequence application to the acting stakeholder: trust clamped to
`[0,100]`, support clamped to the stakeholder's own `[minSupport, maxSupport]`. -/
def applyConsequencesToStakeholder (c : Consequences) (sh : Stakeholder) : Stakeholder :=
  { sh with
    trust := max 0 (min 100 (sh.trust + c.trustChange.getD 0)),
    support := max sh.minSupport (min sh.maxSupport (sh.support + c.supportChange.getD 0)) }

/-- Decision log line of the default container. -/
def decisionMessage (t : String) : String :=
  s!"Decisión: {t}"

/-- Decision log line of the Innovatec container. -/
def decisionMessageInnovatec (n t : String) : String :=
  s!"Decisión con {n}: {t}"

/-- Option selection in the default container: apply the clamped numeric
deltas, append the decision-log entry, mark the scenario completed. The
budget delta is applied without clamping. -/
def applyOption (s : GameState) (focus : Stakeholder) (scen : ScenarioNode)
    (opt : ScenarioOption) (processLogEntry : Option String) : GameState :=
  let c := opt.consequences
  let newStakeholders := s.stakeholders.map
    (fun sh => if sh.name == focus.name then applyConsequencesToStakeholder c sh else sh)
  let entry : DecisionLogEntry :=
    { day := s.day, timeSlot := s.timeSlot, stakeholder := focus.name, nodeId := scen.node_id,
      choiceId := opt.option_id, choiceText := opt.text, consequences := c }
  { s with
    budget := s.budget + c.budgetChange.getD 0,
    reputation := max 0 (min 100 (s.reputation + c.reputationChange.getD 0)),
    projectProgress := max 0 (min 100 (s.projectProgress + c.projectProgressChange.getD 0)),
    stakeholders := newStakeholders,
    completedScenarios := s.completedScenarios ++ [scen.node_id],
    eventsLog := s.eventsLog ++ [decisionMessage opt.text],
    processLog := match processLogEntry with
      | some p => s.processLog ++ [p]
      | none => s.processLog,
    decisionLog := s.decisionLog ++ [entry] }

/-- Option selection in the Innovatec container: identical clamped numeric
application, a differently worded events-log line. -/
def applyOptionInnovatec (s : GameState) (focus : Stakeholder) (scen : ScenarioNode)
    (opt : ScenarioOption) (processLogEntry : Option String) : GameState :=
  let c := opt.consequences
  let newStakeholders := s.stakeholders.map
    (fun sh => if sh.name == focus.name then applyConsequencesToStakeholder c sh else sh)
  let entry : DecisionLogEntry :=
    { day := s.day, timeSlot := s.timeSlot, stakeholder := focus.name, nodeId := scen.node_id,
      choiceId := opt.option_id, choiceText := opt.text, consequences := c }
  { s with
    budget := s.budget + c.budgetChange.getD 0,
    reputation := max 0 (min 100 (s.reputation + c.reputationChange.getD 0)),
    projectProgress := max 0 (min 100 (s.projectProgress + c.projectProgressChange.getD 0)),
    stakeholders := newStakeholders,
    completedScenarios := s.completedScenarios ++ [scen.node_id],
    eventsLog := s.eventsLog ++ [decisionMessageInnovatec focus.name opt.text],
    processLog := match processLogEntry with
      | some p => s.processLog ++ [p]
      | none => s.processLog,
    decisionLog := s.decisionLog ++ [entry] }

/-- First stage of `advanceTimeAndUpdateFocus`: append the just-completed
sequence id unless it is already recorded. -/
def recordCompletedSequence (s : GameState) (justCompletedSequenceId : Option String) :
    GameState :=
  match justCompletedSequenceId with
  | some sid =>
    if s.completedSequences.contains sid then s
    else { s with completedSequences := s.completedSequences ++ [sid] }
  | none => s

/-- The per-stakeholder `lastMetDay` stamp applied to the focused character. -/
def stampOne (ch : Stakeholder) (d : Int) (sh : Stakeholder) : Stakeholder :=
  if sh.name == ch.name then { sh with lastMetDay := some d } else sh

/-- Second stage of `advanceTimeAndUpdateFocus`: stamp the focused
stakeholder's `lastMetDay` with the current day unless the focused character
has the secretary role. -/
def stampLastMet (s : GameState) (characterInFocus : Option Stakeholder) (d : Int) :
    GameState :=
  match characterInFocus with
  | some ch =>
    if ch.role != SECRETARY_ROLE then { s with stakeholders := s.stakeholders.map (stampOne ch d) }
    else s
  | none => s

/-- `advanceTimeAndUpdateFocus` of the default container, restricted to its
`GameState` effects: record the sequence just completed (without duplicating
it), stamp the focused stakeholder's `lastMetDay` with the current day unless
the stakeholder has the secretary role, then advance the clock by exactly one
`advanceTime` call. -/
def advanceTimeAndUpdateFocus (s : GameState) (characterInFocus : Option Stakeholder)
    (justCompletedSequenceId : Option String) : GameState :=
  advanceTime
    (stampLastMet (recordCompletedSequence s justCompletedSequenceId) characterInFocus s.day)

/-- The scheduled trigger point of a sequence, if any. -/
def getScheduleEntry (sched : List (String × Int × String)) (sid : String) :
    Option (Int × String) :=
  (sched.find? (fun p => p.1 == sid)).map Prod.snd

/-- The resolved stakeholder role of a contingent rule: its own override
role if given, else the sequence's role. -/
def resolvedRole (seq : MeetingSequence) (rules : ContingentRules) : String :=
  rules.stakeholderRole.getD seq.stakeholderRole

/-- Lookup of a stakeholder by role. -/
def findStakeholderByRole (s : GameState) (role : String) : Option Stakeholder :=
  s.stakeholders.find? (fun sh => sh.role == role)

/-- The budget gate: configured and not satisfied. -/
def budgetGateFails (rules : ContingentRules) (s : GameState) : Bool :=
  match rules.budgetBelow with
  | some b => decide (s.budget ≥ b)
  | none => false

/-- The trust gate: configured and not satisfied. -/
def trustGateFails (rules : ContingentRules) (sh : Stakeholder) : Bool :=
  match rules.trustBelow with
  | some t => decide (sh.trust ≥ t)
  | none => false

/-- The support gate: configured and not satisfied. -/
def supportGateFails (rules : ContingentRules) (sh : Stakeholder) : Bool :=
  match rules.supportBelow with
  | some v => decide (sh.support ≥ v)
  | none => false

/-- The stakeholder-dependent part of the contingent predicate: a missing
stakeholder fails it; otherwise the configured trust and support gates must
pass. -/
def stakeholderGatePasses (rules : ContingentRules) : Option Stakeholder → Bool
  | none => false
  | some sh =>
    if trustGateFails rules sh then false
    else if supportGateFails rules sh then false
    else true

/-- `shouldTriggerContingentSequence`: all configured thresholds must hold;
the target stakeholder is looked up only when a trust or support threshold is
configured, and a missing stakeholder fails the predicate. -/
def shouldTriggerContingentSequence (seq : MeetingSequence) (s : GameState) : Bool :=
  if seq.isContingent = false then false
  else match seq.contingentRules with
  | none => false
  | some rules =>
    if budgetGateFails rules s then false
    else if rules.trustBelow.isSome || rules.supportBelow.isSome then
      stakeholderGatePasses rules (findStakeholderByRole s (resolvedRole seq rules))
    else true

/-- The inevitable filter of the scheduler effect: inevitable, not completed,
scheduled exactly at the current `{day, slot}`. -/
def inevitableMatches (s : GameState) (seq : MeetingSequence) : Bool :=
  seq.isInevitable && !(s.completedSequences.contains seq.sequence_id) &&
    (match getScheduleEntry s.scenarioSchedule seq.sequence_id with
     | some e => e.1 == s.day && e.2 == s.timeSlot
     | none => false)

/-- The contingent filter of the scheduler effect: contingent, not completed,
predicate satisfied. -/
def contingentMatches (s : GameState) (seq : MeetingSequence) : Bool :=
  seq.isContingent && !(s.completedSequences.contains seq.sequence_id) &&
    shouldTriggerContingentSequence seq s

/-- `inevitableSeq ?? contingentSeq`: the sequence the scheduler elects. -/
def schedulerPick (sequences : List MeetingSequence) (s : GameState) : Option MeetingSequence :=
  match sequences.find? (inevitableMatches s) with
  | some seq => some seq
  | none => sequences.find? (contingentMatches s)

/-- The scheduler effect of the default container: runs only in the game, in
playing status and with no meeting in focus; the elected sequence starts when
a stakeholder with its role exists. -/
def schedulerTick (sequences : List MeetingSequence) (inGame : Bool) (status : GameStatus)
    (currentMeeting : Option Meeting) (s : GameState) :
    Option (MeetingSequence × Stakeholder) :=
  if inGame = false ∨ status ≠ GameStatus.playing ∨ currentMeeting.isSome = true then none
  else match schedulerPick sequences s with
  | none => none
  | some seq =>
    match s.stakeholders.find? (fun sh => sh.role == seq.stakeholderRole) with
    | some sh => some (seq, sh)
    | none => none

/-- The `continue_meeting_sequence` branch of `handlePlayerAction`: the node
index is incremented unconditionally, and the next scenario is looked up by
the node id at the new index (no lookup succeeds past the last node). -/
def continueMeetingSequence (scenarios : List ScenarioNode) (m : Meeting) :
    Meeting × Option ScenarioNode :=
  let nextNodeIndex := m.nodeIndex + 1
  let nextScenario := (m.sequence.nodes.get? nextNodeIndex).bind
    (fun nid => scenarios.find? (fun sc => sc.node_id == nid))
  ({ m with nodeIndex := nextNodeIndex }, nextScenario)

/-- The win-condition check of the status effect: in playing status, reaching
the authored `minProgress` threshold transitions the status to won. -/
def winCheck (minProgress : Int) (status : GameStatus) (s : GameState) : GameStatus :=
  if status = GameStatus.playing ∧ s.projectProgress ≥ minProgress then GameStatus.won
  else status

/-- One second of the countdown timer effect: it runs only unpaused, on the
interaction tab, in the game and in playing status; at exhaustion it performs
one `advanceTimeAndUpdateFocus` and resets the countdown. -/
def timerTick (inGame : Bool) (status : GameStatus) (isTimerPaused : Bool)
    (interactionTab : Bool) (countdown : Int) (s : GameState) (focus : Option Stakeholder) :
    Int × GameState :=
  if isTimerPaused = true ∨ interactionTab = false ∨ status ≠ GameStatus.playing ∨
      inGame = false then
    (countdown, s)
  else if countdown ≤ 1 then (PERIOD_DURATION, advanceTimeAndUpdateFocus s focus none)
  else (countdown - 1, s)

/-- Events-log line of `handleExecuteWeek`. -/
def executeWeekMessage (d : Int) : String :=
  s!"Semana Ejecutada. Avanzado al día {d}."

/-- The `execute_week` dispatch operation: jump the day counter by 5 and
append one events-log line; nothing else is touched. -/
def handleExecuteWeek (s : GameState) : GameState :=
  { s with day := s.day + 5, eventsLog := s.eventsLog ++ [executeWeekMessage (s.day + 5)] }

/-! ### Concrete fixtures used by the witness theorems -/

/-- A pending commitment due on day 5. -/
def wCommit : Commitment :=
  { description := "informe", dayDue := 5, status := CommitmentStatus.pending }

/-- A non-secretary stakeholder with one pending commitment and no meeting yet. -/
def wSh : Stakeholder :=
  { id := "s1", name := "Vega", role := "CFO", trust := 90, support := 50, minSupport := 0,
    maxSupport := 80, status := "normal", lastMetDay := none, commitments := [wCommit] }

/-- A state on the last slot of day 7, so the next `advanceTime` crosses a day. -/
def wState : GameState :=
  { playerName := "p", day := 7, timeSlot := "noche", budget := 100, reputation := 50,
    projectProgress := 10, stakeholders := [wSh], history := [], eventsLog := [],
    criticalWarnings := [], completedSequences := [], completedScenarios := [],
    scenarioSchedule := [], decisionLog := [], processLog := [], calendar := [], inbox := [],
    playerNotes := "" }

/-- A state in the middle of the day, so the next `advanceTime` does not cross. -/
def wStateMid : GameState := { wState with timeSlot := "mañana" }

/-! ### Helper lemmas about rollover commitment counting -/

theorem status_pending_of_isOverdue (nd : Int) (c : Commitment) (h : isOverdue nd c = true) :
    c.status = CommitmentStatus.pending := by
  have := (Bool.and_eq_true _ _).mp h
  exact beq_iff_eq.mp this.1

theorem isBroken_false_of_isOverdue (nd : Int) (c : Commitment) (h : isOverdue nd c = true) :
    isBroken c = false := by
  have hp := status_pending_of_isOverdue nd c h
  simp [isBroken, hp]

theorem broken_break (nd : Int) (cs : List Commitment) :
    brokenCount (cs.map (breakCommitment nd)) = brokenCount cs + overdueCount nd cs := by
  induction cs with
  | nil => rfl
  | cons c cs ih =>
    by_cases h : isOverdue nd c = true
    · have hb := isBroken_false_of_isOverdue nd c h
      have h2 : isBroken (breakCommitment nd c) = true := by
        simp [breakCommitment, h, isBroken]
      simp [brokenCount, overdueCount, List.filter_cons, h2, hb, h] at *
      omega
    · have h2 : breakCommitment nd c = c := by simp [breakCommitment, h]
      by_cases hb : isBroken c = true <;>
        · simp [brokenCount, overdueCount, List.filter_cons, h2, hb, h] at *
          omega

theorem newlyBroken_eq_overdue (nd : Int) (cs : List Commitment) :
    ((brokenCount (cs.map (breakCommitment nd)) : Int) - (brokenCount cs : Int))
      = (overdueCount nd cs : Int) := by
  rw [broken_break]
  push_cast
  ring

theorem rolloverStakeholder_trust (nd : Int) (sh : Stakeholder) :
    (rolloverStakeholder nd sh).trust
      = max 0 (sh.trust - 20 * (overdueCount nd sh.commitments : Int)) := by
  unfold rolloverStakeholder
  simp only [newlyBroken_eq_overdue]
  congr 1
  ring

theorem rolloverStakeholderInnovatec_trust (cd nd : Int) (sh : Stakeholder) :
    (rolloverStakeholderInnovatec cd nd sh).trust
      = max 0 (sh.trust - 20 * (overdueCount nd sh.commitments : Int)
          - (if neglectPenaltyApplies cd sh = true then 2 else 0)) := by
  unfold rolloverStakeholderInnovatec
  simp only [newlyBroken_eq_overdue]
  by_cases h : neglectPenaltyApplies cd sh = true <;>
    · simp only [h, if_true, if_false, Bool.false_eq_true]
      congr 1
      ring

/-! ### C10: `execute_week` jumps the day by 5 and touches nothing else -/

/-- C10. `handleExecuteWeek` increases `day` by exactly 5 and appends exactly
one events-log line; `timeSlot`, the stakeholders (with their commitments and
trust), the history snapshots and every other state field are untouched, so
no commitment breakage, trust penalty or history snapshot happens on the five
day boundaries it skips over. -/
theorem executeWeek_frame (s : GameState) :
    (handleExecuteWeek s).day = s.day + 5 ∧
    (handleExecuteWeek s).eventsLog = s.eventsLog ++ [executeWeekMessage (s.day + 5)] ∧
    (handleExecuteWeek s).eventsLog.length = s.eventsLog.length + 1 ∧
    (handleExecuteWeek s).timeSlot = s.timeSlot ∧
    (handleExecuteWeek s).stakeholders = s.stakeholders ∧
    (handleExecuteWeek s).history = s.history ∧
    (handleExecuteWeek s).budget = s.budget ∧
    (handleExecuteWeek s).reputation = s.reputation ∧
    (handleExecuteWeek s).projectProgress = s.projectProgress ∧
    (handleExecuteWeek s).criticalWarnings = s.criticalWarnings ∧
    (handleExecuteWeek s).completedSequences = s.completedSequences ∧
    (handleExecuteWeek s).completedScenarios = s.completedScenarios ∧
    (handleExecuteWeek s).scenarioSchedule = s.scenarioSchedule ∧
    (handleExecuteWeek s).decisionLog = s.decisionLog ∧
    (handleExecuteWeek s).processLog = s.processLog ∧
    (handleExecuteWeek s).calendar = s.calendar ∧
    (handleExecuteWeek s).inbox = s.inbox ∧
    (handleExecuteWeek s).playerName = s.playerName ∧
    (handleExecuteWeek s).playerNotes = s.playerNotes := by
  refine ⟨rfl, rfl, ?_, rfl, rfl, rfl, rfl, rfl, rfl, rfl, rfl, rfl, rfl, rfl, rfl, rfl, rfl,
    rfl, rfl⟩
  simp [handleExecuteWeek]

/-! ### C6: `continue_meeting_sequence` past the last node -/

/-- A two-node sequence. -/
def wSeqTwoNodes : MeetingSequence :=
  { sequence_id := "SEQ2", stakeholderRole := "CFO", nodes := ["n1", "n2"],
    initialDialogue := "", finalDialogue := "", isInevitable := false, isContingent := false,
    contingentRules := none }

/-- A meeting already at the last node index of `wSeqTwoNodes`. -/
def wMeetingLast : Meeting := { sequence := wSeqTwoNodes, nodeIndex := 1 }

/-- The scenario catalogue holding exactly the two nodes of `wSeqTwoNodes`. -/
def wScenarios : List ScenarioNode :=
  [{ node_id := "n1", stakeholderRole := "CFO", dialogue := "", options := [] },
   { node_id := "n2", stakeholderRole := "CFO", dialogue := "", options := [] }]

/-- C6. Dispatching `continue_meeting_sequence` on a meeting that already sits
at the last node index does not fail closed: the node index is incremented
past the end of the node list (an observable state change, contradicting the
fail-closed requirement), although no scenario is looked up or presented and
no exception is raised. -/
theorem continueMeeting_past_last_mutates_index :
    (continueMeetingSequence wScenarios wMeetingLast).1.nodeIndex
        = wMeetingLast.nodeIndex + 1 ∧
    (continueMeetingSequence wScenarios wMeetingLast).1.nodeIndex ≠ wMeetingLast.nodeIndex ∧
    wMeetingLast.nodeIndex = wMeetingLast.sequence.nodes.length - 1 ∧
    (continueMeetingSequence wScenarios wMeetingLast).1.nodeIndex
        ≥ wMeetingLast.sequence.nodes.length ∧
    (continueMeetingSequence wScenarios wMeetingLast).2 = none := by
  decide

/-! ### C4: the contingent-trigger predicate -/

/-- Budget-only contingent rules: threshold 1000, no trust or support rule. -/
def wBudgetOnlyRules : ContingentRules := { budgetBelow := some 1000 }

/-- A contingent sequence owned by a role that has no stakeholder in `wState`. -/
def wGhostSeq : MeetingSequence :=
  { sequence_id := "SEQC", stakeholderRole := "Fantasma", nodes := [], initialDialogue := "",
    finalDialogue := "", isInevitable := false, isContingent := true,
    contingentRules := some wBudgetOnlyRules }

/-- C4 counterexample. With only a budget threshold configured, the predicate
is `true` although the resolved stakeholder ("Fantasma", the sequence's own
role, since the rule gives no override) does not exist in the state: the
claim that a missing resolved stakeholder always makes the predicate false is
refuted. -/
theorem contingent_trigger_missing_stakeholder_counterexample :
    shouldTriggerContingentSequence wGhostSeq wState = true ∧
    findStakeholderByRole wState (resolvedRole wGhostSeq wBudgetOnlyRules) = none ∧
    wGhostSeq.contingentRules = some wBudgetOnlyRules ∧
    wState.budget < 1000 := by
  decide

theorem budgetGateFails_false_iff (rules : ContingentRules) (s : GameState) :
    budgetGateFails rules s = false ↔ ∀ b, rules.budgetBelow = some b → s.budget < b := by
  cases hb : rules.budgetBelow <;> simp [budgetGateFails, hb]

theorem trustGateFails_false_iff (rules : ContingentRules) (sh : Stakeholder) :
    trustGateFails rules sh = false ↔ ∀ t, rules.trustBelow = some t → sh.trust < t := by
  cases ht : rules.trustBelow <;> simp [trustGateFails, ht]

theorem supportGateFails_false_iff (rules : ContingentRules) (sh : Stakeholder) :
    supportGateFails rules sh = false ↔ ∀ v, rules.supportBelow = some v → sh.support < v := by
  cases hv : rules.supportBelow <;> simp [supportGateFails, hv]

theorem trigger_forward (seq : MeetingSequence) (s : GameState) (rules : ContingentRules)
    (hr : seq.contingentRules = some rules)
    (h : shouldTriggerContingentSequence seq s = true) :
    seq.isContingent = true ∧
    (∀ b, rules.budgetBelow = some b → s.budget < b) ∧
    ((rules.trustBelow.isSome = true ∨ rules.supportBelow.isSome = true) →
      ∃ sh, findStakeholderByRole s (resolvedRole seq rules) = some sh ∧
        (∀ t, rules.trustBelow = some t → sh.trust < t) ∧
        (∀ v, rules.supportBelow = some v → sh.support < v)) := by
  unfold shouldTriggerContingentSequence at h
  rw [hr] at h
  dsimp only at h
  by_cases hic : seq.isContingent = false
  · rw [if_pos hic] at h
    exact absurd h (by simp)
  · have hic' : seq.isContingent = true := Bool.ne_false_iff.mp hic
    rw [if_neg hic] at h
    by_cases hbf : budgetGateFails rules s = true
    · rw [if_pos hbf] at h
      exact absurd h (by simp)
    · rw [if_neg hbf] at h
      have hball := (budgetGateFails_false_iff rules s).mp (Bool.eq_false_iff.mpr hbf)
      by_cases hts : (rules.trustBelow.isSome || rules.supportBelow.isSome) = true
      · rw [if_pos hts] at h
        cases hfind : findStakeholderByRole s (resolvedRole seq rules) with
        | none =>
          rw [hfind] at h
          exact absurd h (by simp [stakeholderGatePasses])
        | some sh =>
          rw [hfind] at h
          by_cases htf : trustGateFails rules sh = true
          · simp [stakeholderGatePasses, htf] at h
          · by_cases hsf : supportGateFails rules sh = true
            · simp [stakeholderGatePasses, htf, hsf] at h
            · refine ⟨hic', hball, fun _ => ⟨sh, hfind ▸ rfl, ?_, ?_⟩⟩
              · exact (trustGateFails_false_iff rules sh).mp (Bool.eq_false_iff.mpr htf)
              · exact (supportGateFails_false_iff rules sh).mp (Bool.eq_false_iff.mpr hsf)
      · refine ⟨hic', hball, fun hcfg => ?_⟩
        exfalso
        rcases hcfg with hcf | hcf <;> simp [hcf] at hts

theorem trigger_backward (seq : MeetingSequence) (s : GameState) (rules : ContingentRules)
    (hr : seq.contingentRules = some rules) (hic : seq.isContingent = true)
    (hball : ∀ b, rules.budgetBelow = some b → s.budget < b)
    (hex : (rules.trustBelow.isSome = true ∨ rules.supportBelow.isSome = true) →
      ∃ sh, findStakeholderByRole s (resolvedRole seq rules) = some sh ∧
        (∀ t, rules.trustBelow = some t → sh.trust < t) ∧
        (∀ v, rules.supportBelow = some v → sh.support < v)) :
    shouldTriggerContingentSequence seq s = true := by
  unfold shouldTriggerContingentSequence
  rw [hr]
  dsimp only
  rw [if_neg (by simp [hic])]
  have hbff : budgetGateFails rules s = false := (budgetGateFails_false_iff rules s).mpr hball
  rw [if_neg (by simp [hbff])]
  by_cases hts : (rules.trustBelow.isSome || rules.supportBelow.isSome) = true
  · rw [if_pos hts]
    obtain ⟨sh, hfind, htr, hsu⟩ := hex (Bool.or_eq_true _ _ |>.mp hts)
    rw [hfind]
    simp [stakeholderGatePasses, (trustGateFails_false_iff rules sh).mpr htr,
      (supportGateFails_false_iff rules sh).mpr hsu]
  · rw [if_neg hts]

theorem trigger_fail_closed (seq : MeetingSequence) (s : GameState) (rules : ContingentRules)
    (hr : seq.contingentRules = some rules)
    (hcfg : rules.trustBelow.isSome = true ∨ rules.supportBelow.isSome = true)
    (hfind : findStakeholderByRole s (resolvedRole seq rules) = none) :
    shouldTriggerContingentSequence seq s = false := by
  unfold shouldTriggerContingentSequence
  rw [hr]
  dsimp only
  by_cases hic : seq.isContingent = false
  · rw [if_pos hic]
  · rw [if_neg hic]
    by_cases hbf : budgetGateFails rules s = true
    · rw [if_pos hbf]
    · rw [if_neg hbf]
      have hts : (rules.trustBelow.isSome || rules.supportBelow.isSome) = true := by
        rcases hcfg with h | h <;> simp [h]
      rw [if_pos hts, hfind]
      rfl

/-- C4 (amended). The contingent-trigger predicate is true exactly when the
sequence is contingent and all configured thresholds hold: `budget <
budgetBelow` if configured, and — whenever a trust or support threshold is
configured — the resolved stakeholder exists and satisfies `trust <
trustBelow` and `support < supportBelow` for the configured ones.  When a
trust or support threshold is configured and the resolved stakeholder is
missing, the predicate is false (fail-closed, total function, no exception);
with only a budget threshold the stakeholder is never consulted. -/
theorem contingent_trigger_characterization (seq : MeetingSequence) (s : GameState)
    (rules : ContingentRules) (hr : seq.contingentRules = some rules) :
    (shouldTriggerContingentSequence seq s = true ↔
      (seq.isContingent = true ∧
       (∀ b, rules.budgetBelow = some b → s.budget < b) ∧
       ((rules.trustBelow.isSome = true ∨ rules.supportBelow.isSome = true) →
         ∃ sh, findStakeholderByRole s (resolvedRole seq rules) = some sh ∧
           (∀ t, rules.trustBelow = some t → sh.trust < t) ∧
           (∀ v, rules.supportBelow = some v → sh.support < v)))) ∧
    ((rules.trustBelow.isSome = true ∨ rules.supportBelow.isSome = true) →
      findStakeholderByRole s (resolvedRole seq rules) = none →
      shouldTriggerContingentSequence seq s = false) :=
  ⟨⟨fun h => trigger_forward seq s rules hr h,
    fun h => trigger_backward seq s rules hr h.1 h.2.1 h.2.2⟩,
   fun hcfg hfind => trigger_fail_closed seq s rules hr hcfg hfind⟩

/-- C4 witness: fail-closed behaviour at a concrete trust-threshold rule whose
target role is absent, obtained from the characterization theorem. -/
def wTrustRules : ContingentRules := { trustBelow := some 40 }

/-- A contingent sequence with a trust threshold on a role with no stakeholder. -/
def wGhostTrustSeq : MeetingSequence :=
  { sequence_id := "SEQT", stakeholderRole := "Fantasma", nodes := [], initialDialogue := "",
    finalDialogue := "", isInevitable := false, isContingent := true,
    contingentRules := some wTrustRules }

theorem contingent_trigger_characterization_witness :
    wGhostTrustSeq.contingentRules = some wTrustRules ∧
    wTrustRules.trustBelow.isSome = true ∧
    findStakeholderByRole wState (resolvedRole wGhostTrustSeq wTrustRules) = none ∧
    shouldTriggerContingentSequence wGhostTrustSeq wState = false :=
  ⟨rfl, rfl, by decide,
    (contingent_trigger_characterization wGhostTrustSeq wState wTrustRules rfl).2
      (Or.inl rfl) (by decide)⟩

/-! ### C1: numeric invariants -/

/-- The per-stakeholder numeric invariant: trust in `[0,100]` and support in
the stakeholder's own `[minSupport, maxSupport]`. -/
def StakeholderOK (sh : Stakeholder) : Prop :=
  0 ≤ sh.trust ∧ sh.trust ≤ 100 ∧ sh.minSupport ≤ sh.support ∧ sh.support ≤ sh.maxSupport

instance (sh : Stakeholder) : Decidable (StakeholderOK sh) :=
  decidable_of_iff
    (0 ≤ sh.trust ∧ sh.trust ≤ 100 ∧ sh.minSupport ≤ sh.support ∧ sh.support ≤ sh.maxSupport)
    Iff.rfl

/-- The global numeric invariant: every stakeholder satisfies
`StakeholderOK`, and reputation and project progress lie in `[0,100]`.
The budget is deliberately absent: it is unclamped. -/
def StateOK (s : GameState) : Prop :=
  (∀ sh ∈ s.stakeholders, StakeholderOK sh) ∧
  0 ≤ s.reputation ∧ s.reputation ≤ 100 ∧
  0 ≤ s.projectProgress ∧ s.projectProgress ≤ 100

instance (s : GameState) : Decidable (StateOK s) :=
  decidable_of_iff
    ((∀ sh ∈ s.stakeholders, StakeholderOK sh) ∧
     0 ≤ s.reputation ∧ s.reputation ≤ 100 ∧
     0 ≤ s.projectProgress ∧ s.projectProgress ≤ 100)
    Iff.rfl

theorem stakeholderOK_applyConsequences (c : Consequences) (sh : Stakeholder)
    (h : StakeholderOK sh) : StakeholderOK (applyConsequencesToStakeholder c sh) := by
  obtain ⟨h1, h2, h3, h4⟩ := h
  unfold StakeholderOK applyConsequencesToStakeholder
  refine ⟨le_max_left _ _, max_le (by norm_num) (min_le_left _ _), le_max_left _ _,
    max_le (le_trans h3 h4) (min_le_left _ _)⟩

theorem stakeholderOK_rollover (nd : Int) (sh : Stakeholder) (h : StakeholderOK sh) :
    StakeholderOK (rolloverStakeholder nd sh) := by
  obtain ⟨h1, h2, h3, h4⟩ := h
  have ht := rolloverStakeholder_trust nd sh
  refine ⟨?_, ?_, h3, h4⟩
  · rw [ht]
    exact le_max_left _ _
  · rw [ht]
    refine max_le (by norm_num) (le_trans (sub_le_self _ ?_) h2)
    positivity

theorem stakeholderOK_rolloverInnovatec (cd nd : Int) (sh : Stakeholder)
    (h : StakeholderOK sh) : StakeholderOK (rolloverStakeholderInnovatec cd nd sh) := by
  obtain ⟨h1, h2, h3, h4⟩ := h
  have ht := rolloverStakeholderInnovatec_trust cd nd sh
  refine ⟨?_, ?_, h3, h4⟩
  · rw [ht]
    exact le_max_left _ _
  · rw [ht]
    refine max_le (by norm_num) (le_trans ?_ h2)
    have hp : (0 : Int) ≤ 20 * (overdueCount nd sh.commitments : Int) := by positivity
    have hq : (0 : Int) ≤ (if neglectPenaltyApplies cd sh = true then 2 else 0) := by
      split <;> norm_num
    omega

theorem stateOK_advanceTime (s : GameState) (h : StateOK s) : StateOK (advanceTime s) := by
  obtain ⟨hsh, h1, h2, h3, h4⟩ := h
  by_cases hc : crossesDay s = true
  · refine ⟨?_, h1, h2, h3, h4⟩
    intro sh hmem
    have : (advanceTime s).stakeholders
        = s.stakeholders.map (rolloverStakeholder (s.day + 1)) := by
      unfold advanceTime
      simp [hc]
    rw [this, List.mem_map] at hmem
    obtain ⟨sh0, hm0, rfl⟩ := hmem
    exact stakeholderOK_rollover _ _ (hsh sh0 hm0)
  · refine ⟨?_, h1, h2, h3, h4⟩
    intro sh hmem
    have : (advanceTime s).stakeholders = s.stakeholders := by
      unfold advanceTime
      simp [hc]
    rw [this] at hmem
    exact hsh sh hmem

theorem stateOK_advanceTimeInnovatec (s : GameState) (h : StateOK s) :
    StateOK (advanceTimeInnovatec s) := by
  obtain ⟨hsh, h1, h2, h3, h4⟩ := h
  by_cases hc : crossesDay s = true
  · refine ⟨?_, h1, h2, h3, h4⟩
    intro sh hmem
    have : (advanceTimeInnovatec s).stakeholders
        = s.stakeholders.map (rolloverStakeholderInnovatec s.day (s.day + 1)) := by
      unfold advanceTimeInnovatec
      simp [hc]
    rw [this, List.mem_map] at hmem
    obtain ⟨sh0, hm0, rfl⟩ := hmem
    exact stakeholderOK_rolloverInnovatec _ _ _ (hsh sh0 hm0)
  · refine ⟨?_, h1, h2, h3, h4⟩
    intro sh hmem
    have : (advanceTimeInnovatec s).stakeholders = s.stakeholders := by
      unfold advanceTimeInnovatec
      simp [hc]
    rw [this] at hmem
    exact hsh sh hmem

theorem stakeholderOK_stampOne (ch : Stakeholder) (d : Int) (sh : Stakeholder)
    (h : StakeholderOK sh) : StakeholderOK (stampOne ch d sh) := by
  unfold stampOne
  split
  · exact h
  · exact h

theorem stateOK_recordCompletedSequence (s : GameState) (j : Option String) (h : StateOK s) :
    StateOK (recordCompletedSequence s j) := by
  cases j with
  | none => exact h
  | some sid =>
    unfold recordCompletedSequence
    dsimp only
    split
    · exact h
    · exact h

theorem stateOK_stampLastMet (s : GameState) (f : Option Stakeholder) (d : Int)
    (h : StateOK s) : StateOK (stampLastMet s f d) := by
  cases f with
  | none => exact h
  | some ch =>
    unfold stampLastMet
    dsimp only
    split
    · obtain ⟨hsh, h1, h2, h3, h4⟩ := h
      refine ⟨?_, h1, h2, h3, h4⟩
      intro sh hmem
      rw [List.mem_map] at hmem
      obtain ⟨sh0, hm0, rfl⟩ := hmem
      exact stakeholderOK_stampOne _ _ _ (hsh sh0 hm0)
    · exact h

theorem stateOK_applyOption (s : GameState) (focus : Stakeholder) (scen : ScenarioNode)
    (opt : ScenarioOption) (pl : Option String) (h : StateOK s) :
    StateOK (applyOption s focus scen opt pl) := by
  obtain ⟨hsh, h1, h2, h3, h4⟩ := h
  refine ⟨?_, le_max_left _ _, max_le (by norm_num) (min_le_left _ _),
    le_max_left _ _, max_le (by norm_num) (min_le_left _ _)⟩
  intro sh hmem
  unfold applyOption at hmem
  dsimp only at hmem
  rw [List.mem_map] at hmem
  obtain ⟨sh0, hm0, rfl⟩ := hmem
  split
  · exact stakeholderOK_applyConsequences _ _ (hsh sh0 hm0)
  · exact hsh sh0 hm0

theorem stateOK_applyOptionInnovatec (s : GameState) (focus : Stakeholder)
    (scen : ScenarioNode) (opt : ScenarioOption) (pl : Option String) (h : StateOK s) :
    StateOK (applyOptionInnovatec s focus scen opt pl) := by
  obtain ⟨hsh, h1, h2, h3, h4⟩ := h
  refine ⟨?_, le_max_left _ _, max_le (by norm_num) (min_le_left _ _),
    le_max_left _ _, max_le (by norm_num) (min_le_left _ _)⟩
  intro sh hmem
  unfold applyOptionInnovatec at hmem
  dsimp only at hmem
  rw [List.mem_map] at hmem
  obtain ⟨sh0, hm0, rfl⟩ := hmem
  split
  · exact stakeholderOK_applyConsequences _ _ (hsh sh0 hm0)
  · exact hsh sh0 hm0

theorem recordCompletedSequence_budget (s : GameState) (j : Option String) :
    (recordCompletedSequence s j).budget = s.budget := by
  cases j with
  | none => rfl
  | some sid =>
    unfold recordCompletedSequence
    dsimp only
    split
    · rfl
    · rfl

theorem stampLastMet_budget (s : GameState) (f : Option Stakeholder) (d : Int) :
    (stampLastMet s f d).budget = s.budget := by
  cases f with
  | none => rfl
  | some ch =>
    unfold stampLastMet
    dsimp only
    split
    · rfl
    · rfl

/-- C1. The numeric invariants are preserved by every state-mutating
operation: option-consequence application (both containers), day rollover
(both containers) and meeting conclusion keep every stakeholder's trust in
`[0,100]` and support in the stakeholder's own `[minSupport, maxSupport]`,
and reputation and project progress in `[0,100]`; the budget is applied as a
plain unclamped sum (so it may go negative) and is never altered by the
clock. -/
theorem numeric_invariants_preserved (s : GameState) (focus : Stakeholder)
    (scen : ScenarioNode) (opt : ScenarioOption) (pl : Option String)
    (ch : Option Stakeholder) (jid : Option String) (hOK : StateOK s) :
    StateOK (applyOption s focus scen opt pl) ∧
    StateOK (applyOptionInnovatec s focus scen opt pl) ∧
    StateOK (advanceTime s) ∧
    StateOK (advanceTimeInnovatec s) ∧
    StateOK (advanceTimeAndUpdateFocus s ch jid) ∧
    (applyOption s focus scen opt pl).budget = s.budget + opt.consequences.budgetChange.getD 0 ∧
    (applyOptionInnovatec s focus scen opt pl).budget
      = s.budget + opt.consequences.budgetChange.getD 0 ∧
    (advanceTime s).budget = s.budget ∧
    (advanceTimeAndUpdateFocus s ch jid).budget = s.budget := by
  refine ⟨stateOK_applyOption s focus scen opt pl hOK,
    stateOK_applyOptionInnovatec s focus scen opt pl hOK,
    stateOK_advanceTime s hOK,
    stateOK_advanceTimeInnovatec s hOK,
    stateOK_advanceTime _ (stateOK_stampLastMet _ ch s.day
      (stateOK_recordCompletedSequence s jid hOK)),
    rfl, rfl, rfl, ?_⟩
  show (stampLastMet (recordCompletedSequence s jid) ch s.day).budget = s.budget
  rw [stampLastMet_budget, recordCompletedSequence_budget]

/-- Consequences exercising every numeric delta, including a budget cost
larger than the current budget. -/
def wConsequences : Consequences :=
  { trustChange := some 15, supportChange := some 40, budgetChange := some (-500),
    reputationChange := some (-60), projectProgressChange := some 95,
    dialogueResponse := "ok" }

/-- An option carrying `wConsequences`. -/
def wOption : ScenarioOption :=
  { option_id := "opt1", text := "Contratar consultores", consequences := wConsequences }

/-- A scenario node carrying `wOption`. -/
def wScenario : ScenarioNode :=
  { node_id := "n1", stakeholderRole := "CFO", dialogue := "", options := [wOption] }

/-- C1 witness: the invariant theorem applied at a concrete in-range state,
including the unclamped budget going negative. -/
theorem numeric_invariants_preserved_witness :
    StateOK wState ∧
    StateOK (applyOption wState wSh wScenario wOption none) ∧
    StateOK (applyOptionInnovatec wState wSh wScenario wOption none) ∧
    StateOK (advanceTime wState) ∧
    StateOK (advanceTimeInnovatec wState) ∧
    StateOK (advanceTimeAndUpdateFocus wState (some wSh) (some "SEQ1")) ∧
    (applyOption wState wSh wScenario wOption none).budget = -400 ∧
    (advanceTimeAndUpdateFocus wState (some wSh) (some "SEQ1")).budget = wState.budget := by
  have h := numeric_invariants_preserved wState wSh wScenario wOption none (some wSh)
    (some "SEQ1") (by decide)
  refine ⟨by decide, h.1, h.2.1, h.2.2.1, h.2.2.2.1, h.2.2.2.2.1, ?_, h.2.2.2.2.2.2.2.2⟩
  rw [h.2.2.2.2.2.1]
  decide

/-! ### Projection lemmas for `advanceTime` -/

theorem advanceTime_day_cross (s : GameState) (hc : crossesDay s = true) :
    (advanceTime s).day = s.day + 1 := by
  unfold advanceTime
  simp [hc]

theorem advanceTime_day_nocross (s : GameState) (hc : crossesDay s = false) :
    (advanceTime s).day = s.day := by
  unfold advanceTime
  simp [hc]

theorem advanceTime_stakeholders_cross (s : GameState) (hc : crossesDay s = true) :
    (advanceTime s).stakeholders = s.stakeholders.map (rolloverStakeholder (s.day + 1)) := by
  unfold advanceTime
  simp [hc]

theorem advanceTime_stakeholders_nocross (s : GameState) (hc : crossesDay s = false) :
    (advanceTime s).stakeholders = s.stakeholders := by
  unfold advanceTime
  simp [hc]

theorem advanceTime_history_cross (s : GameState) (hc : crossesDay s = true) :
    (advanceTime s).history = setKey s.history s.day s.stakeholders := by
  unfold advanceTime
  simp [hc]

theorem advanceTime_history_nocross (s : GameState) (hc : crossesDay s = false) :
    (advanceTime s).history = s.history := by
  unfold advanceTime
  simp [hc]

theorem advanceTimeInnovatec_stakeholders_cross (s : GameState) (hc : crossesDay s = true) :
    (advanceTimeInnovatec s).stakeholders
      = s.stakeholders.map (rolloverStakeholderInnovatec s.day (s.day + 1)) := by
  unfold advanceTimeInnovatec
  simp [hc]

/-! ### C2: rollover happens exactly at day boundaries -/

theorem isOverdue_iff (nd : Int) (c : Commitment) :
    isOverdue nd c = true ↔ c.status = CommitmentStatus.pending ∧ c.dayDue < nd := by
  unfold isOverdue
  rw [Bool.and_eq_true, beq_iff_eq, decide_eq_true_eq]

theorem breakCommitment_of_overdue (nd : Int) (c : Commitment)
    (h : c.status = CommitmentStatus.pending ∧ c.dayDue < nd) :
    breakCommitment nd c = { c with status := CommitmentStatus.broken } := by
  unfold breakCommitment
  rw [if_pos ((isOverdue_iff nd c).mpr h)]

theorem breakCommitment_of_not_overdue (nd : Int) (c : Commitment)
    (h : ¬(c.status = CommitmentStatus.pending ∧ c.dayDue < nd)) :
    breakCommitment nd c = c := by
  unfold breakCommitment
  rw [if_neg (fun hb => h ((isOverdue_iff nd c).mp hb))]

/-- Pointwise description of commitment breakage: the list keeps its length;
each pending commitment overdue at `nd` turns broken; every other commitment
is unchanged. -/
def CommitmentsBrokenPointwise (nd : Int) (cs cs' : List Commitment) : Prop :=
  cs'.length = cs.length ∧
  ∀ j c, cs.get? j = some c →
    ∃ c', cs'.get? j = some c' ∧
      ((c.status = CommitmentStatus.pending ∧ c.dayDue < nd →
        c' = { c with status := CommitmentStatus.broken }) ∧
       (¬(c.status = CommitmentStatus.pending ∧ c.dayDue < nd) → c' = c))

theorem commitments_pointwise (nd : Int) (cs : List Commitment) :
    CommitmentsBrokenPointwise nd cs (cs.map (breakCommitment nd)) := by
  refine ⟨List.length_map cs _, ?_⟩
  intro j c hj
  refine ⟨breakCommitment nd c, ?_, fun h => breakCommitment_of_overdue nd c h,
    fun h => breakCommitment_of_not_overdue nd c h⟩
  rw [List.get?_map, hj]
  rfl

/-- Rollover processing as observed after a boundary-crossing `advanceTime`:
the day increments, and every stakeholder has its overdue pending commitments
broken and its trust reduced by 20 per newly broken commitment, floored at 0. -/
def RolloverApplied (s : GameState) : Prop :=
  (advanceTime s).day = s.day + 1 ∧
  ∀ i sh, s.stakeholders.get? i = some sh →
    ∃ sh', (advanceTime s).stakeholders.get? i = some sh' ∧
      sh'.trust = max 0 (sh.trust - 20 * (overdueCount (s.day + 1) sh.commitments : Int)) ∧
      CommitmentsBrokenPointwise (s.day + 1) sh.commitments sh'.commitments

/-- C2. `advanceTime` applies rollover processing exactly on a day boundary:
when the slot index overflows, the day increments, every pending commitment
with `dayDue < nextDay` becomes broken, and trust drops by 20 per newly
broken commitment with a floor at 0; when the slot index does not overflow,
the day and all stakeholders (commitments and trust) are left unchanged. -/
theorem advance_rollover_on_boundary (s t : GameState)
    (hs : crossesDay s = true) (ht : crossesDay t = false) :
    RolloverApplied s ∧
    (advanceTime t).day = t.day ∧
    (advanceTime t).stakeholders = t.stakeholders := by
  refine ⟨⟨advanceTime_day_cross s hs, ?_⟩, advanceTime_day_nocross t ht,
    advanceTime_stakeholders_nocross t ht⟩
  intro i sh hi
  refine ⟨rolloverStakeholder (s.day + 1) sh, ?_, rolloverStakeholder_trust _ sh, ?_⟩
  · rw [advanceTime_stakeholders_cross s hs, List.get?_map, hi]
    rfl
  · exact commitments_pointwise _ _

/-- C2 witness: a crossing state breaks the overdue commitment and charges
the 20-point penalty; a mid-day state is untouched. -/
theorem advance_rollover_on_boundary_witness :
    crossesDay wState = true ∧ crossesDay wStateMid = false ∧
    RolloverApplied wState ∧
    (advanceTime wStateMid).day = wStateMid.day ∧
    (advanceTime wStateMid).stakeholders = wStateMid.stakeholders := by
  have h := advance_rollover_on_boundary wState wStateMid (by decide) (by decide)
  exact ⟨by decide, by decide, h.1, h.2.1, h.2.2⟩

/-! ### C7: history snapshots -/

/-- The days that already hold a history snapshot. -/
def histKeys (h : List (Int × List Stakeholder)) : List Int :=
  h.map Prod.fst

/-- All recorded snapshot days lie strictly before the current day; this is
the reachable-state invariant of `history`. -/
def HistOK (s : GameState) : Prop :=
  ∀ k ∈ histKeys s.history, k < s.day

instance (s : GameState) : Decidable (HistOK s) :=
  decidable_of_iff (∀ k ∈ histKeys s.history, k < s.day) Iff.rfl

theorem setKey_append (h : List (Int × List Stakeholder)) (k : Int) (v : List Stakeholder)
    (hmem : ∀ p ∈ h, (p.1 == k) = false) : setKey h k v = h ++ [(k, v)] := by
  unfold setKey
  have hany : h.any (fun p => p.1 == k) = false := by
    rw [List.any_eq_false]
    intro p hp
    simp [hmem p hp]
  rw [if_neg (by simp [hany])]

theorem getKey_append_left (h l : List (Int × List Stakeholder)) (k : Int)
    (v : List Stakeholder) (hget : getKey h k = some v) : getKey (h ++ l) k = some v := by
  unfold getKey at *
  induction h with
  | nil => simp at hget
  | cons p h ih =>
    by_cases hp : (p.1 == k) = true
    · have e1 : List.find? (fun q : Int × List Stakeholder => q.1 == k) (p :: h) = some p :=
        List.find?_cons_of_pos _ hp
      have e2 : List.find? (fun q : Int × List Stakeholder => q.1 == k) (p :: (h ++ l))
          = some p := List.find?_cons_of_pos _ hp
      rw [e1] at hget
      rw [List.cons_append, e2]
      exact hget
    · have e1 : List.find? (fun q : Int × List Stakeholder => q.1 == k) (p :: h)
          = List.find? (fun q : Int × List Stakeholder => q.1 == k) h :=
        List.find?_cons_of_neg _ hp
      have e2 : List.find? (fun q : Int × List Stakeholder => q.1 == k) (p :: (h ++ l))
          = List.find? (fun q : Int × List Stakeholder => q.1 == k) (h ++ l) :=
        List.find?_cons_of_neg _ hp
      rw [e1] at hget
      rw [List.cons_append, e2]
      exact ih hget

theorem getKey_append_new (h : List (Int × List Stakeholder)) (k : Int) (v : List Stakeholder)
    (hmem : ∀ p ∈ h, (p.1 == k) = false) : getKey (h ++ [(k, v)]) k = some v := by
  unfold getKey
  induction h with
  | nil => simp [List.find?]
  | cons p h ih =>
    have hp := hmem p (List.mem_cons_self p h)
    have e2 : List.find? (fun q : Int × List Stakeholder => q.1 == k) (p :: (h ++ [(k, v)]))
        = List.find? (fun q : Int × List Stakeholder => q.1 == k) (h ++ [(k, v)]) :=
      List.find?_cons_of_neg _ (by simp [hp])
    rw [List.cons_append, e2]
    exact ih fun q hq => hmem q (List.mem_cons_of_mem p hq)

/-- Every history entry present before an `advanceTime` is still found, with
the same value, afterwards. -/
def HistoryPreserved (s : GameState) : Prop :=
  ∀ k v, getKey s.history k = some v → getKey (advanceTime s).history k = some v

/-- C7. A boundary-crossing `advanceTime` appends exactly one history entry,
keyed by the pre-advance day and holding the pre-advance stakeholder list;
every previously written entry is preserved unchanged, and the invariant that
all snapshot days precede the current day is maintained.  A non-crossing
`advanceTime` writes nothing. -/
theorem advance_history_snapshot (s t : GameState) (hOK : HistOK s)
    (hs : crossesDay s = true) (ht : crossesDay t = false) :
    (advanceTime s).history = s.history ++ [(s.day, s.stakeholders)] ∧
    (advanceTime s).history.length = s.history.length + 1 ∧
    getKey (advanceTime s).history s.day = some s.stakeholders ∧
    HistoryPreserved s ∧
    HistOK (advanceTime s) ∧
    (advanceTime t).history = t.history := by
  have hmem : ∀ p ∈ s.history, (p.1 == s.day) = false := by
    intro p hp
    have hk : p.1 ∈ histKeys s.history := List.mem_map_of_mem Prod.fst hp
    exact beq_eq_false_iff_ne.mpr (ne_of_lt (hOK p.1 hk))
  have h1 : (advanceTime s).history = s.history ++ [(s.day, s.stakeholders)] := by
    rw [advanceTime_history_cross s hs, setKey_append s.history s.day s.stakeholders hmem]
  refine ⟨h1, ?_, ?_, ?_, ?_, advanceTime_history_nocross t ht⟩
  · rw [h1]
    simp
  · rw [h1]
    exact getKey_append_new s.history s.day s.stakeholders hmem
  · intro k v hv
    rw [h1]
    exact getKey_append_left s.history _ k v hv
  · intro k hk
    rw [advanceTime_day_cross s hs]
    unfold histKeys at hk
    rw [h1, List.map_append, List.mem_append] at hk
    rcases hk with hk | hk
    · exact lt_trans (hOK k hk) (by omega)
    · simp at hk
      omega

/-- C7 witness: one crossing advance from a fresh history writes exactly the
day-7 snapshot of the pre-advance stakeholders. -/
theorem advance_history_snapshot_witness :
    HistOK wState ∧
    (advanceTime wState).history = wState.history ++ [(7, wState.stakeholders)] ∧
    (advanceTime wState).history.length = wState.history.length + 1 ∧
    getKey (advanceTime wState).history 7 = some wState.stakeholders ∧
    HistoryPreserved wState ∧
    HistOK (advanceTime wState) ∧
    (advanceTime wStateMid).history = wStateMid.history := by
  have h := advance_history_snapshot wState wStateMid (by decide) (by decide) (by decide)
  exact ⟨by decide, h.1, h.2.1, h.2.2.1, h.2.2.2.1, h.2.2.2.2.1, h.2.2.2.2.2⟩

/-! ### C5: `conclude_meeting` effects -/

theorem advanceTime_completedSequences (s : GameState) :
    (advanceTime s).completedSequences = s.completedSequences := rfl

theorem stampLastMet_completedSequences (s : GameState) (f : Option Stakeholder) (d : Int) :
    (stampLastMet s f d).completedSequences = s.completedSequences := by
  cases f with
  | none => rfl
  | some ch =>
    unfold stampLastMet
    dsimp only
    split
    · rfl
    · rfl

theorem stampLastMet_day (s : GameState) (f : Option Stakeholder) (d : Int) :
    (stampLastMet s f d).day = s.day := by
  cases f with
  | none => rfl
  | some ch =>
    unfold stampLastMet
    dsimp only
    split
    · rfl
    · rfl

theorem stampLastMet_timeSlot (s : GameState) (f : Option Stakeholder) (d : Int) :
    (stampLastMet s f d).timeSlot = s.timeSlot := by
  cases f with
  | none => rfl
  | some ch =>
    unfold stampLastMet
    dsimp only
    split
    · rfl
    · rfl

theorem recordCompletedSequence_day (s : GameState) (j : Option String) :
    (recordCompletedSequence s j).day = s.day := by
  cases j with
  | none => rfl
  | some sid =>
    unfold recordCompletedSequence
    dsimp only
    split
    · rfl
    · rfl

theorem recordCompletedSequence_timeSlot (s : GameState) (j : Option String) :
    (recordCompletedSequence s j).timeSlot = s.timeSlot := by
  cases j with
  | none => rfl
  | some sid =>
    unfold recordCompletedSequence
    dsimp only
    split
    · rfl
    · rfl

theorem recordCompletedSequence_stakeholders (s : GameState) (j : Option String) :
    (recordCompletedSequence s j).stakeholders = s.stakeholders := by
  cases j with
  | none => rfl
  | some sid =>
    unfold recordCompletedSequence
    dsimp only
    split
    · rfl
    · rfl

theorem recordCompletedSequence_new (s : GameState) (sid : String)
    (h : s.completedSequences.contains sid = false) :
    (recordCompletedSequence s (some sid)).completedSequences
      = s.completedSequences ++ [sid] := by
  unfold recordCompletedSequence
  dsimp only
  rw [if_neg (fun hc => Bool.false_ne_true (h ▸ hc))]

theorem recordCompletedSequence_dup (s : GameState) (sid : String)
    (h : s.completedSequences.contains sid = true) :
    (recordCompletedSequence s (some sid)).completedSequences = s.completedSequences := by
  unfold recordCompletedSequence
  dsimp only
  rw [if_pos h]

theorem stampLastMet_stakeholders_stamp (s : GameState) (ch : Stakeholder) (d : Int)
    (h : (ch.role != SECRETARY_ROLE) = true) :
    (stampLastMet s (some ch) d).stakeholders = s.stakeholders.map (stampOne ch d) := by
  unfold stampLastMet
  dsimp only
  rw [if_pos h]

theorem stampLastMet_stakeholders_secretary (s : GameState) (ch : Stakeholder) (d : Int)
    (h : (ch.role != SECRETARY_ROLE) = false) :
    (stampLastMet s (some ch) d).stakeholders = s.stakeholders := by
  unfold stampLastMet
  dsimp only
  rw [if_neg (by simp [h])]

theorem stampOne_lastMetDay (ch : Stakeholder) (d : Int) (sh : Stakeholder) :
    (stampOne ch d sh).lastMetDay = (if sh.name == ch.name then some d else sh.lastMetDay) := by
  unfold stampOne
  split
  · rfl
  · rfl

theorem stampOne_name (ch : Stakeholder) (d : Int) (sh : Stakeholder) :
    (stampOne ch d sh).name = sh.name := by
  unfold stampOne
  split
  · rfl
  · rfl

theorem advanceTime_get?_lastMetDay (s : GameState) (i : Nat) (sh : Stakeholder)
    (h : s.stakeholders.get? i = some sh) :
    ∃ sh', (advanceTime s).stakeholders.get? i = some sh' ∧
      sh'.lastMetDay = sh.lastMetDay := by
  by_cases hc : crossesDay s = true
  · refine ⟨rolloverStakeholder (s.day + 1) sh, ?_, rfl⟩
    rw [advanceTime_stakeholders_cross s hc, List.get?_map, h]
    rfl
  · have hcf : crossesDay s = false := Bool.eq_false_iff.mpr hc
    refine ⟨sh, ?_, rfl⟩
    rw [advanceTime_stakeholders_nocross s hcf]
    exact h

/-- After `conclude_meeting` with non-secretary focus `ch`, the stakeholder
at each position carries `lastMetDay = some s.day` when it is the focused
one (matched by name), and its old `lastMetDay` otherwise. -/
def LastMetSet (s : GameState) (ch : Stakeholder) (jid : Option String) : Prop :=
  ∀ i sh, s.stakeholders.get? i = some sh →
    ∃ sh', (advanceTimeAndUpdateFocus s (some ch) jid).stakeholders.get? i = some sh' ∧
      sh'.lastMetDay = (if sh.name == ch.name then some s.day else sh.lastMetDay)

/-- After `conclude_meeting` with this focus, no stakeholder's `lastMetDay`
changes. -/
def LastMetUnchanged (s : GameState) (f : Option Stakeholder) (jid : Option String) : Prop :=
  ∀ i sh, s.stakeholders.get? i = some sh →
    ∃ sh', (advanceTimeAndUpdateFocus s f jid).stakeholders.get? i = some sh' ∧
      sh'.lastMetDay = sh.lastMetDay

/-- C5. Concluding an active meeting appends the sequence id to
`completedSequences` when absent and leaves the list unchanged when the id is
already recorded (no duplicate); it stamps the focused stakeholder's
`lastMetDay` with the current (pre-advance) day unless the focus has the
secretary role, in which case every `lastMetDay` is unchanged; and it
advances the clock by exactly one `advanceTime` step from the input state. -/
theorem conclude_meeting_effects (s u v : GameState) (ch sec : Stakeholder)
    (idNew idOld : String) (jAny : Option String)
    (h1 : s.completedSequences.contains idNew = false)
    (h2 : (ch.role != SECRETARY_ROLE) = true)
    (h3 : u.completedSequences.contains idOld = true)
    (h4 : (sec.role != SECRETARY_ROLE) = false) :
    (advanceTimeAndUpdateFocus s (some ch) (some idNew)).completedSequences
      = s.completedSequences ++ [idNew] ∧
    (advanceTimeAndUpdateFocus u (some ch) (some idOld)).completedSequences
      = u.completedSequences ∧
    LastMetSet s ch (some idNew) ∧
    LastMetUnchanged v (some sec) jAny ∧
    (advanceTimeAndUpdateFocus s (some ch) (some idNew)).day = (advanceTime s).day ∧
    (advanceTimeAndUpdateFocus s (some ch) (some idNew)).timeSlot
      = (advanceTime s).timeSlot := by
  have clock : ∀ (x : GameState) (f : Option Stakeholder) (j : Option String),
      (advanceTimeAndUpdateFocus x f j).day = (advanceTime x).day ∧
      (advanceTimeAndUpdateFocus x f j).timeSlot = (advanceTime x).timeSlot := by
    intro x f j
    unfold advanceTimeAndUpdateFocus
    have hd : (stampLastMet (recordCompletedSequence x j) f x.day).day = x.day := by
      rw [stampLastMet_day, recordCompletedSequence_day]
    have ht : (stampLastMet (recordCompletedSequence x j) f x.day).timeSlot = x.timeSlot := by
      rw [stampLastMet_timeSlot, recordCompletedSequence_timeSlot]
    have hc : crossesDay (stampLastMet (recordCompletedSequence x j) f x.day)
        = crossesDay x := by
      unfold crossesDay
      rw [ht]
    constructor
    · show (if crossesDay _ then _ + 1 else _) = (if crossesDay x then x.day + 1 else x.day)
      rw [hc, hd]
    · show nextTimeSlot _ = nextTimeSlot x
      unfold nextTimeSlot crossesDay
      rw [ht]
  refine ⟨?_, ?_, ?_, ?_, (clock s (some ch) (some idNew)).1, (clock s (some ch) (some idNew)).2⟩
  · show (stampLastMet (recordCompletedSequence s (some idNew)) (some ch) s.day).completedSequences
        = s.completedSequences ++ [idNew]
    rw [stampLastMet_completedSequences, recordCompletedSequence_new s idNew h1]
  · show (stampLastMet (recordCompletedSequence u (some idOld)) (some ch) u.day).completedSequences
        = u.completedSequences
    rw [stampLastMet_completedSequences, recordCompletedSequence_dup u idOld h3]
  · intro i sh hi
    have hrec : (recordCompletedSequence s (some idNew)).stakeholders.get? i = some sh := by
      rw [recordCompletedSequence_stakeholders]
      exact hi
    have hstamp : (stampLastMet (recordCompletedSequence s (some idNew)) (some ch)
        s.day).stakeholders.get? i = some (stampOne ch s.day sh) := by
      rw [stampLastMet_stakeholders_stamp _ ch s.day h2, List.get?_map, hrec]
      rfl
    obtain ⟨sh', hget, hlm⟩ := advanceTime_get?_lastMetDay _ i (stampOne ch s.day sh) hstamp
    refine ⟨sh', hget, ?_⟩
    rw [hlm, stampOne_lastMetDay]
  · intro i sh hi
    have hrec : (recordCompletedSequence v jAny).stakeholders.get? i = some sh := by
      rw [recordCompletedSequence_stakeholders]
      exact hi
    have hstamp : (stampLastMet (recordCompletedSequence v jAny) (some sec)
        v.day).stakeholders.get? i = some sh := by
      rw [stampLastMet_stakeholders_secretary _ sec v.day h4]
      exact hrec
    exact advanceTime_get?_lastMetDay _ i sh hstamp

/-- A state that has already recorded the sequence id `SEQ_OLD`. -/
def wStateDone : GameState := { wState with completedSequences := ["SEQ_OLD"] }

/-- The secretary stakeholder. -/
def wSecretary : Stakeholder := { wSh with id := "s2", name := "Rivas", role := SECRETARY_ROLE }

/-- C5 witness: concluding at concrete states records the new id once, keeps
the duplicate list unchanged, stamps `lastMetDay`, and moves the clock one
period. -/
theorem conclude_meeting_effects_witness :
    wState.completedSequences.contains "SEQ_NEW" = false ∧
    wStateDone.completedSequences.contains "SEQ_OLD" = true ∧
    (advanceTimeAndUpdateFocus wState (some wSh) (some "SEQ_NEW")).completedSequences
      = wState.completedSequences ++ ["SEQ_NEW"] ∧
    (advanceTimeAndUpdateFocus wStateDone (some wSh) (some "SEQ_OLD")).completedSequences
      = wStateDone.completedSequences ∧
    LastMetSet wState wSh (some "SEQ_NEW") ∧
    LastMetUnchanged wState (some wSecretary) none ∧
    (advanceTimeAndUpdateFocus wState (some wSh) (some "SEQ_NEW")).day
      = (advanceTime wState).day ∧
    (advanceTimeAndUpdateFocus wState (some wSh) (some "SEQ_NEW")).timeSlot
      = (advanceTime wState).timeSlot := by
  have h := conclude_meeting_effects wState wStateDone wState wSh wSecretary "SEQ_NEW"
    "SEQ_OLD" none (by decide) (by decide) (by decide) (by decide)
  exact ⟨by decide, by decide, h.1, h.2.1, h.2.2.1, h.2.2.2.1, h.2.2.2.2.1, h.2.2.2.2.2⟩

/-! ### C8: winning halts the clock -/

/-- C8. In playing status, reaching the authored `minProgress` threshold
turns the status to won; and in any status other than playing the timer
effect performs no clock advance and no rollover: the countdown and the
whole game state are returned unchanged. -/
theorem win_halts_rollover (minP : Int) (s : GameState) (st : GameStatus)
    (paused interact inGame : Bool) (c : Int) (f : Option Stakeholder)
    (hw : s.projectProgress ≥ minP) (hst : st ≠ GameStatus.playing) :
    winCheck minP GameStatus.playing s = GameStatus.won ∧
    timerTick inGame st paused interact c s f = (c, s) := by
  constructor
  · unfold winCheck
    rw [if_pos ⟨rfl, hw⟩]
  · unfold timerTick
    rw [if_pos (Or.inr (Or.inr (Or.inl hst)))]

/-- A state that has reached the progress threshold. -/
def wStateWon : GameState := { wState with projectProgress := 80 }

/-- C8 witness: with threshold 50 and progress 80 the status becomes won, and
a tick in won status leaves countdown and state untouched. -/
theorem win_halts_rollover_witness :
    wStateWon.projectProgress ≥ 50 ∧
    winCheck 50 GameStatus.playing wStateWon = GameStatus.won ∧
    timerTick true GameStatus.won false true 10 wStateWon none = (10, wStateWon) := by
  have h := win_halts_rollover 50 wStateWon GameStatus.won false true true 10 none
    (by decide) (by decide)
  exact ⟨by decide, h.1, h.2⟩

/-! ### C9: the Innovatec neglect penalty -/

/-- The trust formula of the Innovatec rollover: 20 per newly broken
commitment plus a flat 2 for neglect, floored at 0 once. -/
def InnovatecRolloverTrust (s : GameState) : Prop :=
  ∀ i sh, s.stakeholders.get? i = some sh →
    ∃ sh', (advanceTimeInnovatec s).stakeholders.get? i = some sh' ∧
      sh'.trust = max 0 (sh.trust - 20 * (overdueCount (s.day + 1) sh.commitments : Int)
        - (if neglectPenaltyApplies s.day sh = true then 2 else 0))

/-- The secretary role never receives the neglect penalty. -/
def SecretaryExempt (d : Int) : Prop :=
  ∀ sh : Stakeholder, sh.role = SECRETARY_ROLE → neglectPenaltyApplies d sh = false

/-- C9. At a day boundary the Innovatec rollover reduces each stakeholder's
trust by 20 per newly broken commitment and by a further flat 2 exactly when
the stakeholder is not the secretary and has not been met since before
`day - 3`; the combined penalty for one broken commitment plus neglect is
`20 + 2 = 22`, and the result is floored at 0. -/
theorem innovatec_neglect_penalty (s : GameState) (hs : crossesDay s = true) :
    InnovatecRolloverTrust s ∧ SecretaryExempt s.day := by
  constructor
  · intro i sh hi
    refine ⟨rolloverStakeholderInnovatec s.day (s.day + 1) sh, ?_,
      rolloverStakeholderInnovatec_trust s.day (s.day + 1) sh⟩
    rw [advanceTimeInnovatec_stakeholders_cross s hs, List.get?_map, hi]
    rfl
  · intro sh hrole
    unfold neglectPenaltyApplies
    simp [hrole]

/-- C9 witness: `wSh` (trust 90, one commitment overdue, never met, not the
secretary) ends the rollover with trust `90 - 22 = 68`, while the secretary
is exempt from the neglect penalty. -/
theorem innovatec_neglect_penalty_witness :
    crossesDay wState = true ∧
    InnovatecRolloverTrust wState ∧
    SecretaryExempt wState.day ∧
    neglectPenaltyApplies wState.day wSh = true ∧
    Option.map Stakeholder.trust ((advanceTimeInnovatec wState).stakeholders.get? 0)
      = some 68 ∧
    (90 : Int) - (20 * 1 + 2) = 68 := by
  have h := innovatec_neglect_penalty wState (by decide)
  refine ⟨by decide, h.1, h.2, by decide, ?_, by decide⟩
  obtain ⟨sh', hget, htrust⟩ := h.1 0 wSh rfl
  rw [hget, Option.map_some', htrust]
  decide

/-! ### C3: inevitable sequences preempt contingent ones -/

/-- The scheduler elects an inevitable match: some inevitable, scheduled,
uncompleted sequence is picked, and whatever sequence actually starts at this
tick is that one. -/
def SchedulerPicksInevitable (seqs : List MeetingSequence) (s : GameState) : Prop :=
  ∃ q, schedulerPick seqs s = some q ∧ q.isInevitable = true ∧
    inevitableMatches s q = true ∧
    ∀ p st, schedulerTick seqs true GameStatus.playing none s = some (p, st) → p = q

/-- C3. At a tick in playing status with no meeting in focus, if some
uncompleted inevitable sequence is scheduled at the current `{day, slot}` and
some uncompleted contingent sequence's predicate also holds, the scheduler
picks an inevitable match, and the sequence started (if any) is that
inevitable one — a contingent sequence can only start when no inevitable
sequence matches. -/
theorem scheduler_prefers_inevitable (seqs : List MeetingSequence) (s : GameState)
    (hin : ∃ q ∈ seqs, inevitableMatches s q = true)
    (_hcon : ∃ q ∈ seqs, contingentMatches s q = true) :
    SchedulerPicksInevitable seqs s := by
  have hsome : (seqs.find? (inevitableMatches s)).isSome := List.find?_isSome.mpr hin
  obtain ⟨q, hq⟩ := Option.isSome_iff_exists.mp hsome
  have hmatch : inevitableMatches s q = true := List.find?_some hq
  have hinv : q.isInevitable = true := by
    have hm := hmatch
    unfold inevitableMatches at hm
    rw [Bool.and_eq_true, Bool.and_eq_true] at hm
    exact hm.1.1
  have hpick : schedulerPick seqs s = some q := by
    unfold schedulerPick
    rw [hq]
  refine ⟨q, hpick, hinv, hmatch, ?_⟩
  intro p st htick
  unfold schedulerTick at htick
  rw [if_neg (by simp), hpick] at htick
  dsimp only at htick
  cases hfind : s.stakeholders.find? (fun sh => sh.role == q.stakeholderRole) with
  | none =>
    rw [hfind] at htick
    exact absurd htick (by simp)
  | some sh =>
    rw [hfind] at htick
    rw [Option.some.injEq, Prod.mk.injEq] at htick
    exact htick.1.symm

/-- The inevitable sequence scheduled at day 7, "noche". -/
def wInevSeq : MeetingSequence :=
  { sequence_id := "SEQI", stakeholderRole := "CFO", nodes := ["n1"], initialDialogue := "",
    finalDialogue := "", isInevitable := true, isContingent := false, contingentRules := none }

/-- `wState` with `wInevSeq` scheduled exactly at the current `{day, slot}`. -/
def wSchedState : GameState := { wState with scenarioSchedule := [("SEQI", 7, "noche")] }

/-- The catalogue with the triggering contingent sequence listed first. -/
def wSeqs : List MeetingSequence := [wGhostSeq, wInevSeq]

/-- C3 witness: although the contingent `wGhostSeq` triggers (budget 100 <
1000) and is listed first, the scheduler picks the inevitable `wInevSeq`. -/
theorem scheduler_prefers_inevitable_witness :
    wSeqs.any (fun q => inevitableMatches wSchedState q) = true ∧
    wSeqs.any (fun q => contingentMatches wSchedState q) = true ∧
    SchedulerPicksInevitable wSeqs wSchedState :=
  ⟨by decide, by decide,
    scheduler_prefers_inevitable wSeqs wSchedState (by decide) (by decide)⟩

end Prototipo
